import Mathlib

/-!
Verification of the Databricks auth extension's token cache (token.go and the
extension round tripper).  Time is modelled as an integer number of seconds;
the external environment (the AWS identity provider, the HTTP transport and
the JSON decoder) is passed to each embedded function as the outcome it
produced, so an embedded function is a pure function of the code path the Go
source takes on those outcomes.
-/

namespace DatabricksAuth

/-- Parsed success response from the OIDC token endpoint
(struct tokenExchangeResponse in token.go). -/
structure TokenExchangeResponse where
  accessToken : String
  tokenType : String
  expiresIn : Int
deriving DecidableEq

/-- Parsed error response from the OIDC token endpoint
(struct tokenExchangeErrorResponse in token.go). -/
structure TokenExchangeErrorResponse where
  error : String
  errorDescription : String
deriving DecidableEq

/-- The raw bytes of an HTTP response body, abstracted by the outcomes of the
two json.Unmarshal calls exchangeToken may perform on it: none means that
unmarshalling into that shape fails. -/
structure Body where
  errParse : Option TokenExchangeErrorResponse
  tokenParse : Option TokenExchangeResponse
deriving DecidableEq

/-- An HTTP response as seen by exchangeToken: the status code together with
the outcome of io.ReadAll on the body. -/
structure HTTPResponse where
  statusCode : Nat
  bodyRead : Except String Body

/-- defaultTokenTTL in token.go is 1 hour; in seconds. -/
def defaultTokenTTLSeconds : Int := 3600

/-- Shallow embedding of tokenCache.exchangeToken (token.go lines 157-210).
Input: the outcome of awsProvider.GetWebIdentityToken and the outcome of the
HTTP POST (transport error or a response).  Output: the access token and its
TTL in seconds, or the error message the Go code formats (messages wrapped
from external errors keep the external part as the wrapped string). -/
def exchangeToken (awsRes : Except String String)
    (httpRes : Except String HTTPResponse) : Except String (String × Int) :=
  match awsRes with
  | .error e => .error ("failed to get AWS token: " ++ e)
  | .ok _ =>
    match httpRes with
    | .error e => .error ("token exchange request failed: " ++ e)
    | .ok resp =>
      match resp.bodyRead with
      | .error e => .error ("failed to read token exchange response: " ++ e)
      | .ok body =>
        if resp.statusCode ≠ 200 then
          match body.errParse with
          | some er =>
            if er.error ≠ "" then
              .error ("token exchange failed (" ++ er.error ++ "): "
                        ++ er.errorDescription)
            else
              .error ("token exchange failed with status " ++ toString resp.statusCode)
          | none =>
            .error ("token exchange failed with status " ++ toString resp.statusCode)
        else
          match body.tokenParse with
          | none => .error ("failed to parse token exchange response")
          | some tr =>
            if tr.accessToken = "" then
              .error ("token exchange response missing access_token")
            else
              .ok (tr.accessToken, if tr.expiresIn ≤ 0 then defaultTokenTTLSeconds
                                   else tr.expiresIn)

/-- The mutable cached-credential state shared by tokenCache and
STSTokenProvider: the cached token string and its expiry instant. -/
structure CacheState where
  cachedToken : String
  tokenExpiry : Int
deriving DecidableEq

/-- Freshness test used by both caches: the Go condition
cachedToken != "" && time.Now().Before(tokenExpiry.Add(-buffer)). -/
def usableAt (st : CacheState) (buf now : Int) : Bool :=
  decide (st.cachedToken ≠ "") && decide (now < st.tokenExpiry - buf)

/-- Result of one sequential run of tokenCache.GetToken: the value or error
returned, the cache state afterwards, and whether the slow-path exchange was
performed. -/
structure GetTokenResult where
  result : Except String String
  newState : CacheState
  exchanged : Bool

/-- Shallow embedding of one sequential pass through tokenCache.GetToken
(token.go lines 116-154): the fast-path check reads the clock at now1, the
double check inside the coalescing group at now2, and the expiry of a freshly
exchanged token is computed at now3. -/
def GetToken (buf : Int) (st : CacheState) (now1 now2 now3 : Int)
    (awsRes : Except String String) (httpRes : Except String HTTPResponse) :
    GetTokenResult :=
  if usableAt st buf now1 then ⟨.ok st.cachedToken, st, false⟩
  else if usableAt st buf now2 then ⟨.ok st.cachedToken, st, false⟩
  else
    match exchangeToken awsRes httpRes with
    | .error e => ⟨.error e, st, true⟩
    | .ok (tok, ttl) => ⟨.ok tok, ⟨tok, now3 + ttl⟩, true⟩

/-- Config.expiryBufferOrDefault (config source): a configured positive
buffer is used as is, anything else falls back to 5 minutes. -/
def expiryBufferOrDefault (configured : Int) : Int :=
  if 0 < configured then configured else 300

/-- An HTTP request as the round tripper sees it: its header map, one value
per canonical key, none meaning the header is absent. -/
structure Request where
  headers : String → Option String

/-- Header.Set: replace the value stored under a key. -/
def headerSet (h : String → Option String) (k v : String) : String → Option String :=
  Function.update h k (some v)

/-- Request.Clone: a copy of the request carrying the same headers. -/
def cloneRequest (r : Request) : Request :=
  ⟨r.headers⟩

/-- The two modes of the extension: a non-nil cache (federation), carrying
the outcome of cache.GetToken for this request, or the static token. -/
inductive AuthMode where
  | cached (res : Except String String)
  | fixed (tok : String)

/-- The token the round tripper will inject: GetToken's outcome in federation
mode, the configured string in static mode. -/
def modeToken : AuthMode → Except String String
  | .cached r => r
  | .fixed t => .ok t

/-- Shallow embedding of bearerRoundTripper.RoundTrip: on success it returns
the request handed to the base transport together with the state of the
original request object after the call. -/
def RoundTrip (mode : AuthMode) (req : Request) :
    Except String (Request × Request) :=
  match modeToken mode with
  | .error e => .error e
  | .ok token =>
    let r := cloneRequest req
    let r2 : Request := ⟨headerSet r.headers ("Authorization") ("Bearer " ++ token)⟩
    .ok (r2, req)

/-- Output of sts.Client.GetWebIdentityToken as used by the provider: the
optional token pointer and the optional expiration timestamp. -/
structure STSOutput where
  webIdentityToken : Option String
  expiration : Option Int
deriving DecidableEq

/-- The fixed expiryBuffer constant inside STSTokenProvider.GetWebIdentityToken:
30 seconds, independent of the configured expiry_buffer. -/
def stsExpiryBuffer : Int := 30

/-- Shallow embedding of STSTokenProvider.GetWebIdentityToken (token.go lines
52-86): the freshness check reads the clock at now1, the fallback expiry for
a response without an expiration is computed at now2. -/
def GetWebIdentityToken (st : CacheState) (now1 now2 : Int)
    (stsRes : Except String STSOutput) : Except String String × CacheState :=
  if usableAt st stsExpiryBuffer now1 then (.ok st.cachedToken, st)
  else
    match stsRes with
    | .error e => (.error ("failed to get web identity token from STS: " ++ e), st)
    | .ok out =>
      match out.webIdentityToken with
      | none => (.error ("STS returned empty token"), st)
      | some t =>
        if t = "" then (.error ("STS returned empty token"), st)
        else
          (.ok t, ⟨t, match out.expiration with
                      | some e => e
                      | none => now2 + 300⟩)

/-!
Concurrency model of GetToken.  Each caller of tokenCache.GetToken is a
numbered task which walks through the phases below; the coalescing group
(golang.org/x/sync/singleflight with the single key used by the code) is
modelled by its documented contract: the first task to enter while no call is
in flight runs the function, tasks entering while a call is in flight wait
for it, and when the running function returns, every joined task receives the
one result.  The environment (clock and network) is nondeterministic: time
may advance by any nonnegative amount and a running exchange may complete
with any outcome exchangeToken could produce.
-/

/-- Phase of one caller of GetToken. -/
inductive Phase where
  | start
  | slow
  | leaderCheck
  | leaderExch
  | waiting
  | done (r : Except String String)

/-- Global state: the cache, the clock, the coalescing group's in-flight call
(the list of joined caller ids), every caller's phase, and counters of
exchange requests started and completed. -/
structure Sys where
  cache : CacheState
  now : Int
  flight : Option (List Nat)
  callers : Nat → Phase
  started : Nat
  completed : Nat

/-- Distribution of an in-flight call's result to every joined caller. -/
def completeAll (r : Except String String) (l : List Nat) (cs : Nat → Phase) :
    Nat → Phase :=
  fun j => if j ∈ l then Phase.done r else cs j

/-- State after the in-flight exchange fails with error e: the cache is left
untouched and every joined caller receives the error. -/
def completeErrState (s : Sys) (l : List Nat) (e : String) : Sys :=
  { s with flight := none,
           callers := completeAll (.error e) l s.callers,
           completed := s.completed + 1 }

/-- State after the in-flight exchange succeeds with token tok and TTL ttl:
the cache is overwritten and every joined caller receives the token. -/
def completeOkState (s : Sys) (l : List Nat) (tok : String) (ttl : Int) : Sys :=
  { s with cache := ⟨tok, s.now + ttl⟩,
           flight := none,
           callers := completeAll (.ok tok) l s.callers,
           completed := s.completed + 1 }

/-- One interleaving step of the system of concurrent GetToken callers. -/
inductive Step (buf : Int) : Sys → Sys → Prop where
  | tick (s : Sys) (d : Int) (hd : 0 ≤ d) :
      Step buf s { s with now := s.now + d }
  | fastHit (s : Sys) (i : Nat) (hph : s.callers i = .start)
      (hu : usableAt s.cache buf s.now = true) :
      Step buf s { s with callers := Function.update s.callers i (.done (.ok s.cache.cachedToken)) }
  | fastMiss (s : Sys) (i : Nat) (hph : s.callers i = .start)
      (hu : usableAt s.cache buf s.now = false) :
      Step buf s { s with callers := Function.update s.callers i .slow }
  | sfLead (s : Sys) (i : Nat) (hph : s.callers i = .slow)
      (hf : s.flight = none) :
      Step buf s { s with flight := some [i],
                          callers := Function.update s.callers i .leaderCheck }
  | sfJoin (s : Sys) (i : Nat) (l : List Nat) (hph : s.callers i = .slow)
      (hf : s.flight = some l) :
      Step buf s { s with flight := some (i :: l),
                          callers := Function.update s.callers i .waiting }
  | dblHit (s : Sys) (i : Nat) (l : List Nat) (hph : s.callers i = .leaderCheck)
      (hf : s.flight = some l) (hil : i ∈ l)
      (hu : usableAt s.cache buf s.now = true) :
      Step buf s { s with flight := none,
                          callers := completeAll (.ok s.cache.cachedToken) l s.callers }
  | dblMiss (s : Sys) (i : Nat) (hph : s.callers i = .leaderCheck)
      (hu : usableAt s.cache buf s.now = false) :
      Step buf s { s with callers := Function.update s.callers i .leaderExch,
                          started := s.started + 1 }
  | exchOk (s : Sys) (i : Nat) (l : List Nat) (tok : String) (ttl : Int)
      (hph : s.callers i = .leaderExch) (hf : s.flight = some l) (hil : i ∈ l)
      (htok : tok ≠ "") (httl : 0 < ttl) :
      Step buf s (completeOkState s l tok ttl)
  | exchErr (s : Sys) (i : Nat) (l : List Nat) (e : String)
      (hph : s.callers i = .leaderExch) (hf : s.flight = some l) (hil : i ∈ l) :
      Step buf s (completeErrState s l e)

/-- Reachability from a fixed start state by any number of interleaving
steps. -/
inductive Reach (buf : Int) (s0 : Sys) : Sys → Prop where
  | refl : Reach buf s0 s0
  | step {t u : Sys} : Reach buf s0 t → Step buf t u → Reach buf s0 u

/-- Initial state of the race: cache content c0 (cold or expired), clock n0,
no call in flight, every caller about to call GetToken, no exchange started. -/
def initSys (c0 : CacheState) (n0 : Int) : Sys :=
  { cache := c0,
    now := n0,
    flight := none,
    callers := fun _ => Phase.start,
    started := 0,
    completed := 0 }

/-- A caller phase holding the coalescing group's lock as leader. -/
def isLeader (ph : Phase) : Prop :=
  ph = Phase.leaderCheck ∨ ph = Phase.leaderExch

/-- Inductive invariant of the race from an initial cache c0 unusable at n0. -/
def Inv (c0 : CacheState) (n0 : Int) (s : Sys) : Prop :=
  n0 ≤ s.now
  ∧ (∀ j, s.callers j = .waiting ∨ isLeader (s.callers j) →
       ∃ l, s.flight = some l ∧ j ∈ l)
  ∧ (∀ i j, isLeader (s.callers i) → isLeader (s.callers j) → i = j)
  ∧ ((∃ i, s.callers i = .leaderExch) → s.started = s.completed + 1)
  ∧ ((∀ i, s.callers i ≠ .leaderExch) → s.started = s.completed)
  ∧ (s.completed = 0 → s.cache = c0)
  ∧ (s.completed = 0 → ∀ i r, s.callers i ≠ .done r)
  ∧ (s.started ≤ 1 →
       (∀ i j ri rj, s.callers i = .done ri → s.callers j = .done rj → ri = rj)
       ∧ (∀ i t, s.callers i = .done (.ok t) → s.cache.cachedToken = t)
       ∧ (∀ i e, s.callers i = .done (.error e) → s.cache = c0))

/-- Sample success body used by concrete witnesses. -/
def okBody : Body := ⟨none, some ⟨("tok-abc"), ("Bearer"), 3600⟩⟩

/-- Sample success response used by concrete witnesses. -/
def okResp : HTTPResponse := ⟨200, .ok okBody⟩

theorem usableAt_eq_true (st : CacheState) (buf now : Int) :
    usableAt st buf now = true ↔ st.cachedToken ≠ "" ∧ now < st.tokenExpiry - buf := by
  simp [usableAt]

theorem bool_eq_false_of_ne_true {b : Bool} (h : ¬ b = true) : b = false := by
  cases b
  · rfl
  · exact absurd rfl h

theorem usableAt_mono_false {st : CacheState} {buf n m : Int}
    (h : usableAt st buf n = false) (hnm : n ≤ m) : usableAt st buf m = false := by
  cases hx : usableAt st buf m with
  | false => rfl
  | true =>
    rcases (usableAt_eq_true st buf m).mp hx with ⟨ht, hlt⟩
    have hn : usableAt st buf n = true :=
      (usableAt_eq_true st buf n).mpr ⟨ht, by omega⟩
    rw [hn] at h
    exact Bool.noConfusion h

theorem exchangeToken_ok_spec {awsRes : Except String String}
    {httpRes : Except String HTTPResponse} {tok : String} {ttl : Int}
    (h : exchangeToken awsRes httpRes = .ok (tok, ttl)) : tok ≠ "" ∧ 0 < ttl := by
  cases awsRes with
  | error e => simp [exchangeToken] at h
  | ok aws =>
    cases httpRes with
    | error e => simp [exchangeToken] at h
    | ok resp =>
      cases hb : resp.bodyRead with
      | error e => simp [exchangeToken, hb] at h
      | ok body =>
        by_cases hst : resp.statusCode = 200
        · cases htp : body.tokenParse with
          | none => simp [exchangeToken, hb, hst, htp] at h
          | some tr =>
            by_cases hne : tr.accessToken = ""
            · simp [exchangeToken, hb, hst, htp, hne] at h
            · simp [exchangeToken, hb, hst, htp, hne] at h
              obtain ⟨h1, h2⟩ := h
              subst h1
              refine ⟨hne, ?_⟩
              by_cases hle : tr.expiresIn ≤ 0
              · rw [if_pos hle] at h2
                rw [← h2]
                norm_num [defaultTokenTTLSeconds]
              · rw [if_neg hle] at h2
                omega
        · cases hep : body.errParse with
          | none => simp [exchangeToken, hb, hst, hep] at h
          | some er =>
            by_cases he : er.error = ""
            · simp [exchangeToken, hb, hst, hep, he] at h
            · simp [exchangeToken, hb, hst, hep, he] at h

/-- C2: a GetToken call avoids the exchange exactly when the cached value is
non-empty and now < expiresAt - expiryBuffer at the fast-path check, and in
that case it returns the cached credential and leaves the cache unchanged;
an unusable cached credential always triggers a refresh instead. -/
theorem getToken_fast_path_iff (buf : Int) (st : CacheState) (now1 now2 now3 : Int)
    (awsRes : Except String String) (httpRes : Except String HTTPResponse)
    (h12 : now1 ≤ now2) :
    ((GetToken buf st now1 now2 now3 awsRes httpRes).exchanged = false
        ↔ st.cachedToken ≠ "" ∧ now1 < st.tokenExpiry - buf)
    ∧ (st.cachedToken ≠ "" ∧ now1 < st.tokenExpiry - buf →
        (GetToken buf st now1 now2 now3 awsRes httpRes).result = .ok st.cachedToken
        ∧ (GetToken buf st now1 now2 now3 awsRes httpRes).newState = st) := by
  by_cases h1 : usableAt st buf now1 = true
  · have hc := (usableAt_eq_true st buf now1).mp h1
    simp [GetToken, h1, hc]
  · have h1f : usableAt st buf now1 = false := bool_eq_false_of_ne_true h1
    have h2f : usableAt st buf now2 = false := usableAt_mono_false h1f h12
    have hnc : ¬(st.cachedToken ≠ "" ∧ now1 < st.tokenExpiry - buf) := by
      intro hc
      exact h1 ((usableAt_eq_true st buf now1).mpr hc)
    have hex : (GetToken buf st now1 now2 now3 awsRes httpRes).exchanged = true := by
      cases hx : exchangeToken awsRes httpRes with
      | error e => simp [GetToken, h1f, h2f, hx]
      | ok p =>
        obtain ⟨tok, ttl⟩ := p
        simp [GetToken, h1f, h2f, hx]
    refine ⟨⟨fun hxf => ?_, fun hc => absurd hc hnc⟩, fun hc => absurd hc hnc⟩
    rw [hxf] at hex
    exact Bool.noConfusion hex

/-- C2 witness: a usable cached credential is returned from the fast path,
an expired one is not. -/
theorem getToken_fast_path_iff_witness :
    (0 : Int) ≤ 0
    ∧ (((GetToken 300 ⟨("cached"), 10000⟩ 0 0 0 (.ok ("a")) (.ok okResp)).exchanged = false
          ↔ ("cached" : String) ≠ "" ∧ (0 : Int) < 10000 - 300)
        ∧ (("cached" : String) ≠ "" ∧ (0 : Int) < 10000 - 300 →
            (GetToken 300 ⟨("cached"), 10000⟩ 0 0 0 (.ok ("a")) (.ok okResp)).result
              = .ok (("cached") : String)
            ∧ (GetToken 300 ⟨("cached"), 10000⟩ 0 0 0 (.ok ("a")) (.ok okResp)).newState
              = ⟨("cached"), 10000⟩)) :=
  ⟨by decide, getToken_fast_path_iff 300 ⟨("cached"), 10000⟩ 0 0 0 (.ok ("a")) (.ok okResp)
      (by decide)⟩

/-- C3: with the positive refresh buffer the extension always configures, a
cached credential whose expiry is in the past is never returned: GetToken
performs the exchange and its outcome is the exchange's outcome. -/
theorem getToken_expired_always_exchanges (cb : Int) (st : CacheState)
    (now1 now2 now3 : Int) (awsRes : Except String String)
    (httpRes : Except String HTTPResponse)
    (hexp : st.tokenExpiry ≤ now1) (h12 : now1 ≤ now2) :
    0 < expiryBufferOrDefault cb
    ∧ (GetToken (expiryBufferOrDefault cb) st now1 now2 now3 awsRes httpRes).exchanged = true
    ∧ (GetToken (expiryBufferOrDefault cb) st now1 now2 now3 awsRes httpRes).result
        = (exchangeToken awsRes httpRes).map Prod.fst := by
  have hbuf : 0 < expiryBufferOrDefault cb := by
    unfold expiryBufferOrDefault
    split
    · omega
    · omega
  have h1f : usableAt st (expiryBufferOrDefault cb) now1 = false := by
    cases hx : usableAt st (expiryBufferOrDefault cb) now1 with
    | false => rfl
    | true =>
      rcases (usableAt_eq_true st (expiryBufferOrDefault cb) now1).mp hx with ⟨_, hlt⟩
      omega
  have h2f : usableAt st (expiryBufferOrDefault cb) now2 = false :=
    usableAt_mono_false h1f h12
  refine ⟨hbuf, ?_, ?_⟩ <;>
    cases hx : exchangeToken awsRes httpRes with
  | error e => simp [GetToken, h1f, h2f, hx, Except.map]
  | ok p =>
    obtain ⟨tok, ttl⟩ := p
    simp [GetToken, h1f, h2f, hx, Except.map]

/-- C3 witness: a stale credential set directly to a past expiry is replaced
by the fresh exchange result. -/
theorem getToken_expired_always_exchanges_witness :
    ((-3600 : Int) ≤ 0 ∧ (0 : Int) ≤ 0)
    ∧ (0 < expiryBufferOrDefault 0
        ∧ (GetToken (expiryBufferOrDefault 0) ⟨("stale"), -3600⟩ 0 0 0 (.ok ("a"))
            (.ok okResp)).exchanged = true
        ∧ (GetToken (expiryBufferOrDefault 0) ⟨("stale"), -3600⟩ 0 0 0 (.ok ("a"))
            (.ok okResp)).result
            = (exchangeToken (.ok ("a")) (.ok okResp)).map Prod.fst) :=
  ⟨⟨by decide, by decide⟩,
    getToken_expired_always_exchanges 0 ⟨("stale"), -3600⟩ 0 0 0 (.ok ("a")) (.ok okResp)
      (by decide) (by decide)⟩

/-- C4: when the refresh attempt fails, the cached credential (value and
expiry) is left completely unchanged, the error is returned, and in the
coalescing model every caller joined to the failed attempt receives that
same error while the cache is untouched. -/
theorem getToken_failed_refresh_preserves_cache (buf : Int) (st : CacheState)
    (now1 now2 now3 : Int) (awsRes : Except String String)
    (httpRes : Except String HTTPResponse) (e : String)
    (hu1 : usableAt st buf now1 = false) (hu2 : usableAt st buf now2 = false)
    (he : exchangeToken awsRes httpRes = .error e) :
    (GetToken buf st now1 now2 now3 awsRes httpRes).result = .error e
    ∧ (GetToken buf st now1 now2 now3 awsRes httpRes).newState = st
    ∧ ∀ (s : Sys) (l : List Nat) (j : Nat), j ∈ l →
        (completeErrState s l e).cache = s.cache
        ∧ (completeErrState s l e).callers j = Phase.done (.error e) := by
  refine ⟨?_, ?_, ?_⟩
  · simp [GetToken, hu1, hu2, he]
  · simp [GetToken, hu1, hu2, he]
  · intro s l j hj
    exact ⟨rfl, by simp [completeErrState, completeAll, hj]⟩

/-- C4 witness: a transport failure leaves the cold cache untouched and
surfaces the wrapped error. -/
theorem getToken_failed_refresh_preserves_cache_witness :
    (usableAt ⟨(""), 0⟩ 300 0 = false ∧ usableAt ⟨(""), 0⟩ 300 0 = false
      ∧ exchangeToken (.ok ("a")) (.error ("connection refused"))
          = .error ("token exchange request failed: connection refused"))
    ∧ ((GetToken 300 ⟨(""), 0⟩ 0 0 0 (.ok ("a")) (.error ("connection refused"))).result
          = .error ("token exchange request failed: connection refused")
        ∧ (GetToken 300 ⟨(""), 0⟩ 0 0 0 (.ok ("a")) (.error ("connection refused"))).newState
          = ⟨(""), 0⟩
        ∧ ∀ (s : Sys) (l : List Nat) (j : Nat), j ∈ l →
            (completeErrState s l ("token exchange request failed: connection refused")).cache
              = s.cache
            ∧ (completeErrState s l ("token exchange request failed: connection refused")).callers j
              = Phase.done (.error ("token exchange request failed: connection refused"))) :=
  ⟨⟨by decide, by decide, rfl⟩,
    getToken_failed_refresh_preserves_cache 300 ⟨(""), 0⟩ 0 0 0 (.ok ("a"))
      (.error ("connection refused")) ("token exchange request failed: connection refused")
      (by decide) (by decide) rfl⟩

/-- C5: on a non-success status, a parsed error body with a non-empty error
field yields a failure combining error and error_description; otherwise the
failure carries the raw status code. -/
theorem exchangeToken_error_status (aws : String) (resp : HTTPResponse) (body : Body)
    (hb : resp.bodyRead = .ok body) (hst : resp.statusCode ≠ 200) :
    (∀ er, body.errParse = some er → er.error ≠ "" →
        exchangeToken (.ok aws) (.ok resp)
          = .error ("token exchange failed (" ++ er.error ++ "): " ++ er.errorDescription))
    ∧ (body.errParse = none →
        exchangeToken (.ok aws) (.ok resp)
          = .error ("token exchange failed with status " ++ toString resp.statusCode))
    ∧ (∀ er, body.errParse = some er → er.error = "" →
        exchangeToken (.ok aws) (.ok resp)
          = .error ("token exchange failed with status " ++ toString resp.statusCode)) := by
  refine ⟨?_, ?_, ?_⟩
  · intro er hep hee
    simp [exchangeToken, hb, hst, hep, hee]
  · intro hep
    simp [exchangeToken, hb, hst, hep]
  · intro er hep hee
    simp [exchangeToken, hb, hst, hep, hee]

/-- C5 witness: a 401 with a structured body combines both fields; a 429
without one carries the raw status code. -/
theorem exchangeToken_error_status_witness :
    ((⟨401, .ok ⟨some ⟨("invalid_client"), ("bad credentials")⟩, none⟩⟩ : HTTPResponse).bodyRead
        = .ok ⟨some ⟨("invalid_client"), ("bad credentials")⟩, none⟩
      ∧ (⟨401, .ok ⟨some ⟨("invalid_client"), ("bad credentials")⟩, none⟩⟩
          : HTTPResponse).statusCode ≠ 200)
    ∧ exchangeToken (.ok ("a"))
        (.ok ⟨401, .ok ⟨some ⟨("invalid_client"), ("bad credentials")⟩, none⟩⟩)
        = .error ("token exchange failed (invalid_client): bad credentials")
    ∧ exchangeToken (.ok ("a")) (.ok ⟨429, .ok ⟨none, none⟩⟩)
        = .error ("token exchange failed with status 429") :=
  ⟨⟨rfl, by decide⟩,
    (exchangeToken_error_status ("a")
        ⟨401, .ok ⟨some ⟨("invalid_client"), ("bad credentials")⟩, none⟩⟩
        ⟨some ⟨("invalid_client"), ("bad credentials")⟩, none⟩ rfl (by decide)).1
      ⟨("invalid_client"), ("bad credentials")⟩ rfl (by decide),
    (exchangeToken_error_status ("a") ⟨429, .ok ⟨none, none⟩⟩ ⟨none, none⟩ rfl
        (by decide)).2.1 rfl⟩

/-- C6: a success status with an unparsable body or an empty access token is
a failure, and any exchange failure leaves the previously cached value
unchanged. -/
theorem exchangeToken_invalid_success_body (aws : String) (resp : HTTPResponse) (body : Body)
    (hb : resp.bodyRead = .ok body) (hst : resp.statusCode = 200) :
    (body.tokenParse = none →
        exchangeToken (.ok aws) (.ok resp) = .error ("failed to parse token exchange response"))
    ∧ (∀ tr, body.tokenParse = some tr → tr.accessToken = "" →
        exchangeToken (.ok aws) (.ok resp)
          = .error ("token exchange response missing access_token"))
    ∧ (∀ (buf : Int) (st : CacheState) (now1 now2 now3 : Int) (e : String),
        exchangeToken (.ok aws) (.ok resp) = .error e →
        (GetToken buf st now1 now2 now3 (.ok aws) (.ok resp)).newState = st) := by
  refine ⟨?_, ?_, ?_⟩
  · intro htp
    simp [exchangeToken, hb, hst, htp]
  · intro tr htp hne
    simp [exchangeToken, hb, hst, htp, hne]
  · intro buf st now1 now2 now3 e he
    by_cases h1 : usableAt st buf now1 = true
    · simp [GetToken, h1]
    · by_cases h2 : usableAt st buf now2 = true
      · simp [GetToken, bool_eq_false_of_ne_true h1, h2]
      · simp [GetToken, bool_eq_false_of_ne_true h1, bool_eq_false_of_ne_true h2, he]

/-- C6 witness: a 200 with a body missing access_token fails and the cache
is unchanged. -/
theorem exchangeToken_invalid_success_body_witness :
    ((⟨200, .ok ⟨none, some ⟨(""), ("Bearer"), 3600⟩⟩⟩ : HTTPResponse).bodyRead
        = .ok ⟨none, some ⟨(""), ("Bearer"), 3600⟩⟩
      ∧ (⟨200, .ok ⟨none, some ⟨(""), ("Bearer"), 3600⟩⟩⟩ : HTTPResponse).statusCode = 200)
    ∧ exchangeToken (.ok ("a")) (.ok ⟨200, .ok ⟨none, some ⟨(""), ("Bearer"), 3600⟩⟩⟩)
        = .error ("token exchange response missing access_token")
    ∧ (GetToken 300 ⟨("prev"), 50000⟩ 0 0 0 (.ok ("a"))
        (.ok ⟨200, .ok ⟨none, some ⟨(""), ("Bearer"), 3600⟩⟩⟩)).newState = ⟨("prev"), 50000⟩ :=
  ⟨⟨rfl, rfl⟩,
    (exchangeToken_invalid_success_body ("a") ⟨200, .ok ⟨none, some ⟨(""), ("Bearer"), 3600⟩⟩⟩
        ⟨none, some ⟨(""), ("Bearer"), 3600⟩⟩ rfl rfl).2.1 ⟨(""), ("Bearer"), 3600⟩ rfl rfl,
    (exchangeToken_invalid_success_body ("a") ⟨200, .ok ⟨none, some ⟨(""), ("Bearer"), 3600⟩⟩⟩
        ⟨none, some ⟨(""), ("Bearer"), 3600⟩⟩ rfl rfl).2.2 300 ⟨("prev"), 50000⟩ 0 0 0
      ("token exchange response missing access_token") rfl⟩

/-- C7: a success response with expires_in at most zero is accepted and the
default TTL of one hour is substituted, so the stored expiry is the store
instant plus 3600 seconds. -/
theorem exchangeToken_nonpositive_expiresIn (aws : String) (resp : HTTPResponse)
    (body : Body) (tr : TokenExchangeResponse)
    (hb : resp.bodyRead = .ok body) (hst : resp.statusCode = 200)
    (htp : body.tokenParse = some tr) (hne : tr.accessToken ≠ "") (hle : tr.expiresIn ≤ 0) :
    exchangeToken (.ok aws) (.ok resp) = .ok (tr.accessToken, defaultTokenTTLSeconds)
    ∧ defaultTokenTTLSeconds = 3600
    ∧ ∀ (buf : Int) (st : CacheState) (now1 now2 now3 : Int),
        usableAt st buf now1 = false → usableAt st buf now2 = false →
        (GetToken buf st now1 now2 now3 (.ok aws) (.ok resp)).newState
          = ⟨tr.accessToken, now3 + defaultTokenTTLSeconds⟩ := by
  have hex : exchangeToken (.ok aws) (.ok resp) = .ok (tr.accessToken, defaultTokenTTLSeconds) := by
    simp [exchangeToken, hb, hst, htp, hne, hle]
  refine ⟨hex, rfl, ?_⟩
  intro buf st now1 now2 now3 hu1 hu2
  simp [GetToken, hu1, hu2, hex]

/-- C7 witness: expires_in of zero yields the token with expiry one hour
after the store instant. -/
theorem exchangeToken_nonpositive_expiresIn_witness :
    ((⟨200, .ok ⟨none, some ⟨("tok"), ("Bearer"), 0⟩⟩⟩ : HTTPResponse).bodyRead
        = .ok ⟨none, some ⟨("tok"), ("Bearer"), 0⟩⟩
      ∧ (⟨200, .ok ⟨none, some ⟨("tok"), ("Bearer"), 0⟩⟩⟩ : HTTPResponse).statusCode = 200
      ∧ (⟨none, some ⟨("tok"), ("Bearer"), 0⟩⟩ : Body).tokenParse
          = some ⟨("tok"), ("Bearer"), 0⟩
      ∧ (("tok") : String) ≠ "" ∧ ((0 : Int) ≤ 0))
    ∧ (exchangeToken (.ok ("a")) (.ok ⟨200, .ok ⟨none, some ⟨("tok"), ("Bearer"), 0⟩⟩⟩)
        = .ok ((("tok") : String), defaultTokenTTLSeconds)
      ∧ defaultTokenTTLSeconds = 3600
      ∧ ∀ (buf : Int) (st : CacheState) (now1 now2 now3 : Int),
          usableAt st buf now1 = false → usableAt st buf now2 = false →
          (GetToken buf st now1 now2 now3 (.ok ("a"))
            (.ok ⟨200, .ok ⟨none, some ⟨("tok"), ("Bearer"), 0⟩⟩⟩)).newState
            = ⟨("tok"), now3 + defaultTokenTTLSeconds⟩) :=
  ⟨⟨rfl, rfl, rfl, by decide, by decide⟩,
    exchangeToken_nonpositive_expiresIn ("a") ⟨200, .ok ⟨none, some ⟨("tok"), ("Bearer"), 0⟩⟩⟩
      ⟨none, some ⟨("tok"), ("Bearer"), 0⟩⟩ ⟨("tok"), ("Bearer"), 0⟩ rfl rfl rfl
      (by decide) (by decide)⟩

/-- C9: whenever GetToken returns without error, the returned token string is
non-empty, on every path. -/
theorem getToken_success_nonempty (buf : Int) (st : CacheState) (now1 now2 now3 : Int)
    (awsRes : Except String String) (httpRes : Except String HTTPResponse) (t : String)
    (h : (GetToken buf st now1 now2 now3 awsRes httpRes).result = .ok t) :
    t ≠ "" := by
  by_cases h1 : usableAt st buf now1 = true
  · rcases (usableAt_eq_true st buf now1).mp h1 with ⟨hne, _⟩
    simp [GetToken, h1] at h
    rw [← h]
    exact hne
  · by_cases h2 : usableAt st buf now2 = true
    · rcases (usableAt_eq_true st buf now2).mp h2 with ⟨hne, _⟩
      simp [GetToken, bool_eq_false_of_ne_true h1, h2] at h
      rw [← h]
      exact hne
    · cases hx : exchangeToken awsRes httpRes with
      | error e =>
        simp [GetToken, bool_eq_false_of_ne_true h1, bool_eq_false_of_ne_true h2, hx] at h
      | ok p =>
        obtain ⟨tok, ttl⟩ := p
        have hspec := exchangeToken_ok_spec hx
        simp [GetToken, bool_eq_false_of_ne_true h1, bool_eq_false_of_ne_true h2, hx] at h
        rw [← h]
        exact hspec.1

/-- C9 witness: the token returned from a fresh exchange on a cold cache is
non-empty. -/
theorem getToken_success_nonempty_witness :
    (GetToken 300 ⟨(""), 0⟩ 0 0 0 (.ok ("a")) (.ok okResp)).result = .ok (("tok-abc") : String)
    ∧ (("tok-abc") : String) ≠ "" :=
  ⟨rfl, getToken_success_nonempty 300 ⟨(""), 0⟩ 0 0 0 (.ok ("a")) (.ok okResp) ("tok-abc") rfl⟩

/-- C8: every successful round trip hands the base transport a clone carrying
Authorization: Bearer token and returns the original request object with its
headers exactly as they were before the call. -/
theorem roundTrip_preserves_original (mode : AuthMode) (req sent orig : Request)
    (h : RoundTrip mode req = .ok (sent, orig)) :
    orig = req
    ∧ ∃ tok, modeToken mode = .ok tok
        ∧ sent.headers ("Authorization") = some ("Bearer " ++ tok)
        ∧ ∀ k, k ≠ "Authorization" → sent.headers k = req.headers k := by
  cases hm : modeToken mode with
  | error e =>
    unfold RoundTrip at h
    rw [hm] at h
    exact absurd h (by simp)
  | ok tok =>
    unfold RoundTrip at h
    rw [hm] at h
    simp only [Except.ok.injEq, Prod.mk.injEq] at h
    obtain ⟨h1, h2⟩ := h
    refine ⟨h2.symm, tok, rfl, ?_, ?_⟩
    · rw [← h1]
      simp [headerSet, cloneRequest]
    · intro k hk
      rw [← h1]
      simp [headerSet, cloneRequest, Function.update_noteq hk]

/-- C8 witness: a concrete round trip injects the bearer header on the copy
and returns the original unchanged. -/
theorem roundTrip_preserves_original_witness :
    RoundTrip (.cached (.ok ("tok"))) ⟨fun _ => none⟩
        = .ok (⟨headerSet (fun _ => none) ("Authorization") ("Bearer " ++ "tok")⟩,
               ⟨fun _ => none⟩)
    ∧ ((⟨fun _ => none⟩ : Request) = ⟨fun _ => none⟩
        ∧ ∃ tok, modeToken (.cached (.ok ("tok"))) = .ok tok
            ∧ (⟨headerSet (fun _ => none) ("Authorization") ("Bearer " ++ "tok")⟩
                : Request).headers ("Authorization") = some ("Bearer " ++ tok)
            ∧ ∀ k, k ≠ "Authorization" →
                (⟨headerSet (fun _ => none) ("Authorization") ("Bearer " ++ "tok")⟩
                  : Request).headers k = (⟨fun _ => none⟩ : Request).headers k) :=
  ⟨rfl, roundTrip_preserves_original (.cached (.ok ("tok"))) ⟨fun _ => none⟩
      ⟨headerSet (fun _ => none) ("Authorization") ("Bearer " ++ "tok")⟩ ⟨fun _ => none⟩ rfl⟩

/-- C10: the identity-token cache uses the fixed 30-second buffer (no
configured buffer enters the definition), and a successful STS fetch stores
the STS expiration when present and the fetch instant plus 5 minutes when
absent. -/
theorem stsProvider_expiry_rules (st : CacheState) (now1 now2 : Int)
    (out : STSOutput) (t : String)
    (hmiss : usableAt st stsExpiryBuffer now1 = false)
    (htok : out.webIdentityToken = some t) (hne : t ≠ "") :
    stsExpiryBuffer = 30
    ∧ (∀ (st2 : CacheState) (m1 m2 : Int) (res : Except String STSOutput),
        usableAt st2 stsExpiryBuffer m1 = true →
        GetWebIdentityToken st2 m1 m2 res = (.ok st2.cachedToken, st2))
    ∧ (GetWebIdentityToken st now1 now2 (.ok out)).1 = .ok t
    ∧ (∀ e, out.expiration = some e →
        (GetWebIdentityToken st now1 now2 (.ok out)).2 = ⟨t, e⟩)
    ∧ (out.expiration = none →
        (GetWebIdentityToken st now1 now2 (.ok out)).2 = ⟨t, now2 + 300⟩) := by
  refine ⟨rfl, ?_, ?_, ?_, ?_⟩
  · intro st2 m1 m2 res hu
    simp [GetWebIdentityToken, hu]
  · simp [GetWebIdentityToken, hmiss, htok, hne]
  · intro e he
    simp [GetWebIdentityToken, hmiss, htok, hne, he]
  · intro hnone
    simp [GetWebIdentityToken, hmiss, htok, hne, hnone]

/-- C10 witness: a cold identity cache fetches and stores the provided STS
expiration. -/
theorem stsProvider_expiry_rules_witness :
    (usableAt ⟨(""), 0⟩ stsExpiryBuffer 0 = false
      ∧ (⟨some ("aws-token"), some 900⟩ : STSOutput).webIdentityToken = some ("aws-token")
      ∧ ("aws-token" : String) ≠ "")
    ∧ (stsExpiryBuffer = 30
      ∧ (∀ (st2 : CacheState) (m1 m2 : Int) (res : Except String STSOutput),
          usableAt st2 stsExpiryBuffer m1 = true →
          GetWebIdentityToken st2 m1 m2 res = (.ok st2.cachedToken, st2))
      ∧ (GetWebIdentityToken ⟨(""), 0⟩ 0 0 (.ok ⟨some ("aws-token"), some 900⟩)).1
          = .ok (("aws-token") : String)
      ∧ (∀ e, (⟨some ("aws-token"), some 900⟩ : STSOutput).expiration = some e →
          (GetWebIdentityToken ⟨(""), 0⟩ 0 0 (.ok ⟨some ("aws-token"), some 900⟩)).2
            = ⟨("aws-token"), e⟩)
      ∧ ((⟨some ("aws-token"), some 900⟩ : STSOutput).expiration = none →
          (GetWebIdentityToken ⟨(""), 0⟩ 0 0 (.ok ⟨some ("aws-token"), some 900⟩)).2
            = ⟨("aws-token"), 0 + 300⟩)) :=
  ⟨⟨by decide, rfl, by decide⟩,
    stsProvider_expiry_rules ⟨(""), 0⟩ 0 0 ⟨some ("aws-token"), some 900⟩ ("aws-token")
      (by decide) rfl (by decide)⟩

theorem update_apply (cs : Nat → Phase) (i : Nat) (ph : Phase) (j : Nat) :
    Function.update cs i ph j = if j = i then ph else cs j := by
  rcases eq_or_ne j i with rfl | hne
  · simp
  · simp [Function.update_noteq hne, hne]

theorem completeAll_apply (r : Except String String) (l : List Nat) (cs : Nat → Phase)
    (j : Nat) : completeAll r l cs j = if j ∈ l then Phase.done r else cs j := rfl

theorem inv_init (c0 : CacheState) (n0 : Int) : Inv c0 n0 (initSys c0 n0) := by
  refine ⟨le_refl n0, ?_, ?_, ?_, ?_, ?_, ?_, ?_⟩
  · intro j hj
    simp [initSys, isLeader] at hj
  · intro i j hi _
    simp [initSys, isLeader] at hi
  · rintro ⟨i, hi⟩
    simp [initSys] at hi
  · intro _
    rfl
  · intro _
    rfl
  · intro _ i r
    simp [initSys]
  · intro _
    refine ⟨?_, ?_, ?_⟩
    · intro i j ri rj hi _
      simp [initSys] at hi
    · intro i t hi
      simp [initSys] at hi
    · intro i e hi
      simp [initSys] at hi

theorem inv_tick {c0 : CacheState} {n0 : Int} {s : Sys} (d : Int) (hd : 0 ≤ d)
    (hinv : Inv c0 n0 s) : Inv c0 n0 { s with now := s.now + d } := by
  obtain ⟨hnow, hM, hB, hA1, hA2, hE, hF, hG⟩ := hinv
  refine ⟨?_, hM, hB, hA1, hA2, hE, hF, hG⟩
  show n0 ≤ s.now + d
  omega

theorem inv_fastHit {c0 : CacheState} {n0 buf : Int} {s : Sys} (i : Nat)
    (hu0 : usableAt c0 buf n0 = false)
    (hph : s.callers i = .start) (hu : usableAt s.cache buf s.now = true)
    (hinv : Inv c0 n0 s) :
    Inv c0 n0 { s with callers := Function.update s.callers i (.done (.ok s.cache.cachedToken)) } := by
  obtain ⟨hnow, hM, hB, hA1, hA2, hE, hF, hG⟩ := hinv
  have hmono : usableAt c0 buf s.now = false := usableAt_mono_false hu0 hnow
  have hcne : s.completed ≠ 0 := by
    intro h0
    have hcc : s.cache = c0 := hE h0
    rw [hcc, hmono] at hu
    exact Bool.noConfusion hu
  refine ⟨hnow, ?_, ?_, ?_, ?_, hE, ?_, ?_⟩
  · intro j hj
    have hj2 : Function.update s.callers i (.done (.ok s.cache.cachedToken)) j = .waiting
        ∨ isLeader (Function.update s.callers i (.done (.ok s.cache.cachedToken)) j) := hj
    rw [update_apply] at hj2
    by_cases hji : j = i
    · rw [if_pos hji] at hj2
      simp [isLeader] at hj2
    · rw [if_neg hji] at hj2
      exact hM j hj2
  · intro a b ha hb
    have ha2 : isLeader (Function.update s.callers i (.done (.ok s.cache.cachedToken)) a) := ha
    have hb2 : isLeader (Function.update s.callers i (.done (.ok s.cache.cachedToken)) b) := hb
    rw [update_apply] at ha2 hb2
    by_cases hai : a = i
    · rw [if_pos hai] at ha2
      simp [isLeader] at ha2
    · rw [if_neg hai] at ha2
      by_cases hbi : b = i
      · rw [if_pos hbi] at hb2
        simp [isLeader] at hb2
      · rw [if_neg hbi] at hb2
        exact hB a b ha2 hb2
  · rintro ⟨j, hj⟩
    have hj2 : Function.update s.callers i (.done (.ok s.cache.cachedToken)) j = .leaderExch := hj
    rw [update_apply] at hj2
    by_cases hji : j = i
    · rw [if_pos hji] at hj2
      exact absurd hj2 (by simp)
    · rw [if_neg hji] at hj2
      exact hA1 ⟨j, hj2⟩
  · intro hall
    apply hA2
    intro j hj
    by_cases hji : j = i
    · subst hji
      rw [hph] at hj
      exact Phase.noConfusion hj
    · have hnj : Function.update s.callers i (.done (.ok s.cache.cachedToken)) j
          ≠ Phase.leaderExch := hall j
      rw [update_apply, if_neg hji] at hnj
      exact hnj hj
  · intro h0
    exact absurd h0 hcne
  · intro hst1
    obtain ⟨hg1, hg2, hg3⟩ := hG hst1
    have hold : ∀ a ra, s.callers a = .done ra → ra = .ok s.cache.cachedToken := by
      intro a ra ha
      cases ra with
      | ok t =>
        rw [hg2 a t ha]
      | error e =>
        have hcc := hg3 a e ha
        rw [hcc, hmono] at hu
        exact Bool.noConfusion hu
    have hgd : ∀ a ra, Function.update s.callers i (.done (.ok s.cache.cachedToken)) a
        = .done ra → ra = .ok s.cache.cachedToken := by
      intro a ra ha
      rw [update_apply] at ha
      by_cases hai : a = i
      · rw [if_pos hai] at ha
        exact (Phase.done.inj ha).symm
      · rw [if_neg hai] at ha
        exact hold a ra ha
    refine ⟨?_, ?_, ?_⟩
    · intro a b ra rb ha hb
      rw [hgd a ra ha, hgd b rb hb]
    · intro a t ha
      have h2 := hgd a (.ok t) ha
      show s.cache.cachedToken = t
      exact (Except.ok.inj h2).symm
    · intro a e ha
      have h2 := hgd a (.error e) ha
      exact absurd h2 (by simp)

theorem inv_fastMiss {c0 : CacheState} {n0 : Int} {s : Sys} (i : Nat)
    (hph : s.callers i = .start) (hinv : Inv c0 n0 s) :
    Inv c0 n0 { s with callers := Function.update s.callers i .slow } := by
  obtain ⟨hnow, hM, hB, hA1, hA2, hE, hF, hG⟩ := hinv
  refine ⟨hnow, ?_, ?_, ?_, ?_, hE, ?_, ?_⟩
  · intro j hj
    have hj2 : Function.update s.callers i .slow j = .waiting
        ∨ isLeader (Function.update s.callers i .slow j) := hj
    rw [update_apply] at hj2
    by_cases hji : j = i
    · rw [if_pos hji] at hj2
      simp [isLeader] at hj2
    · rw [if_neg hji] at hj2
      exact hM j hj2
  · intro a b ha hb
    have ha2 : isLeader (Function.update s.callers i .slow a) := ha
    have hb2 : isLeader (Function.update s.callers i .slow b) := hb
    rw [update_apply] at ha2 hb2
    by_cases hai : a = i
    · rw [if_pos hai] at ha2
      simp [isLeader] at ha2
    · rw [if_neg hai] at ha2
      by_cases hbi : b = i
      · rw [if_pos hbi] at hb2
        simp [isLeader] at hb2
      · rw [if_neg hbi] at hb2
        exact hB a b ha2 hb2
  · rintro ⟨j, hj⟩
    have hj2 : Function.update s.callers i .slow j = .leaderExch := hj
    rw [update_apply] at hj2
    by_cases hji : j = i
    · rw [if_pos hji] at hj2
      exact absurd hj2 (by simp)
    · rw [if_neg hji] at hj2
      exact hA1 ⟨j, hj2⟩
  · intro hall
    apply hA2
    intro j hj
    by_cases hji : j = i
    · subst hji
      rw [hph] at hj
      exact Phase.noConfusion hj
    · have hnj : Function.update s.callers i .slow j ≠ Phase.leaderExch := hall j
      rw [update_apply, if_neg hji] at hnj
      exact hnj hj
  · intro h0 j r
    have hFj := hF h0 j r
    intro hj
    have hj2 : Function.update s.callers i .slow j = .done r := hj
    rw [update_apply] at hj2
    by_cases hji : j = i
    · rw [if_pos hji] at hj2
      exact Phase.noConfusion hj2
    · rw [if_neg hji] at hj2
      exact hFj hj2
  · intro hst1
    obtain ⟨hg1, hg2, hg3⟩ := hG hst1
    have hgd : ∀ a ra, Function.update s.callers i .slow a = .done ra →
        s.callers a = .done ra := by
      intro a ra ha
      rw [update_apply] at ha
      by_cases hai : a = i
      · rw [if_pos hai] at ha
        exact absurd ha (by simp)
      · rw [if_neg hai] at ha
        exact ha
    refine ⟨?_, ?_, ?_⟩
    · intro a b ra rb ha hb
      exact hg1 a b ra rb (hgd a ra ha) (hgd b rb hb)
    · intro a t ha
      exact hg2 a t (hgd a (.ok t) ha)
    · intro a e ha
      exact hg3 a e (hgd a (.error e) ha)

theorem inv_sfLead {c0 : CacheState} {n0 : Int} {s : Sys} (i : Nat)
    (hph : s.callers i = .slow) (hf : s.flight = none) (hinv : Inv c0 n0 s) :
    Inv c0 n0 { s with flight := some [i],
                       callers := Function.update s.callers i .leaderCheck } := by
  obtain ⟨hnow, hM, hB, hA1, hA2, hE, hF, hG⟩ := hinv
  have hnoL : ∀ j, ¬(s.callers j = .waiting ∨ isLeader (s.callers j)) := by
    intro j hj
    rcases hM j hj with ⟨l, hfl, _⟩
    rw [hf] at hfl
    exact Option.noConfusion hfl
  refine ⟨hnow, ?_, ?_, ?_, ?_, hE, ?_, ?_⟩
  · intro j hj
    have hj2 : Function.update s.callers i .leaderCheck j = .waiting
        ∨ isLeader (Function.update s.callers i .leaderCheck j) := hj
    rw [update_apply] at hj2
    by_cases hji : j = i
    · exact ⟨[i], rfl, by rw [hji]; exact List.mem_singleton_self i⟩
    · rw [if_neg hji] at hj2
      exact absurd hj2 (hnoL j)
  · intro a b ha hb
    have ha2 : isLeader (Function.update s.callers i .leaderCheck a) := ha
    have hb2 : isLeader (Function.update s.callers i .leaderCheck b) := hb
    rw [update_apply] at ha2 hb2
    by_cases hai : a = i
    · by_cases hbi : b = i
      · rw [hai, hbi]
      · rw [if_neg hbi] at hb2
        exact absurd (Or.inr hb2) (hnoL b)
    · rw [if_neg hai] at ha2
      exact absurd (Or.inr ha2) (hnoL a)
  · rintro ⟨j, hj⟩
    have hj2 : Function.update s.callers i .leaderCheck j = .leaderExch := hj
    rw [update_apply] at hj2
    by_cases hji : j = i
    · rw [if_pos hji] at hj2
      exact absurd hj2 (by simp)
    · rw [if_neg hji] at hj2
      exact absurd (Or.inr (Or.inr hj2)) (hnoL j)
  · intro _
    apply hA2
    intro j hj
    exact hnoL j (Or.inr (Or.inr hj))
  · intro h0 j r
    have hFj := hF h0 j r
    intro hj
    have hj2 : Function.update s.callers i .leaderCheck j = .done r := hj
    rw [update_apply] at hj2
    by_cases hji : j = i
    · rw [if_pos hji] at hj2
      exact Phase.noConfusion hj2
    · rw [if_neg hji] at hj2
      exact hFj hj2
  · intro hst1
    obtain ⟨hg1, hg2, hg3⟩ := hG hst1
    have hgd : ∀ a ra, Function.update s.callers i .leaderCheck a = .done ra →
        s.callers a = .done ra := by
      intro a ra ha
      rw [update_apply] at ha
      by_cases hai : a = i
      · rw [if_pos hai] at ha
        exact absurd ha (by simp)
      · rw [if_neg hai] at ha
        exact ha
    refine ⟨?_, ?_, ?_⟩
    · intro a b ra rb ha hb
      exact hg1 a b ra rb (hgd a ra ha) (hgd b rb hb)
    · intro a t ha
      exact hg2 a t (hgd a (.ok t) ha)
    · intro a e ha
      exact hg3 a e (hgd a (.error e) ha)

theorem inv_sfJoin {c0 : CacheState} {n0 : Int} {s : Sys} (i : Nat) (l : List Nat)
    (hph : s.callers i = .slow) (hf : s.flight = some l) (hinv : Inv c0 n0 s) :
    Inv c0 n0 { s with flight := some (i :: l),
                       callers := Function.update s.callers i .waiting } := by
  obtain ⟨hnow, hM, hB, hA1, hA2, hE, hF, hG⟩ := hinv
  refine ⟨hnow, ?_, ?_, ?_, ?_, hE, ?_, ?_⟩
  · intro j hj
    have hj2 : Function.update s.callers i .waiting j = .waiting
        ∨ isLeader (Function.update s.callers i .waiting j) := hj
    rw [update_apply] at hj2
    by_cases hji : j = i
    · exact ⟨i :: l, rfl, by rw [hji]; exact List.mem_cons_self i l⟩
    · rw [if_neg hji] at hj2
      rcases hM j hj2 with ⟨l2, hfl2, hjl2⟩
      rw [hf] at hfl2
      refine ⟨i :: l, rfl, ?_⟩
      have : l2 = l := (Option.some.inj hfl2).symm
      rw [this] at hjl2
      exact List.mem_cons_of_mem i hjl2
  · intro a b ha hb
    have ha2 : isLeader (Function.update s.callers i .waiting a) := ha
    have hb2 : isLeader (Function.update s.callers i .waiting b) := hb
    rw [update_apply] at ha2 hb2
    by_cases hai : a = i
    · rw [if_pos hai] at ha2
      simp [isLeader] at ha2
    · rw [if_neg hai] at ha2
      by_cases hbi : b = i
      · rw [if_pos hbi] at hb2
        simp [isLeader] at hb2
      · rw [if_neg hbi] at hb2
        exact hB a b ha2 hb2
  · rintro ⟨j, hj⟩
    have hj2 : Function.update s.callers i .waiting j = .leaderExch := hj
    rw [update_apply] at hj2
    by_cases hji : j = i
    · rw [if_pos hji] at hj2
      exact absurd hj2 (by simp)
    · rw [if_neg hji] at hj2
      exact hA1 ⟨j, hj2⟩
  · intro hall
    apply hA2
    intro j hj
    by_cases hji : j = i
    · subst hji
      rw [hph] at hj
      exact Phase.noConfusion hj
    · have hnj : Function.update s.callers i .waiting j ≠ Phase.leaderExch := hall j
      rw [update_apply, if_neg hji] at hnj
      exact hnj hj
  · intro h0 j r
    have hFj := hF h0 j r
    intro hj
    have hj2 : Function.update s.callers i .waiting j = .done r := hj
    rw [update_apply] at hj2
    by_cases hji : j = i
    · rw [if_pos hji] at hj2
      exact Phase.noConfusion hj2
    · rw [if_neg hji] at hj2
      exact hFj hj2
  · intro hst1
    obtain ⟨hg1, hg2, hg3⟩ := hG hst1
    have hgd : ∀ a ra, Function.update s.callers i .waiting a = .done ra →
        s.callers a = .done ra := by
      intro a ra ha
      rw [update_apply] at ha
      by_cases hai : a = i
      · rw [if_pos hai] at ha
        exact absurd ha (by simp)
      · rw [if_neg hai] at ha
        exact ha
    refine ⟨?_, ?_, ?_⟩
    · intro a b ra rb ha hb
      exact hg1 a b ra rb (hgd a ra ha) (hgd b rb hb)
    · intro a t ha
      exact hg2 a t (hgd a (.ok t) ha)
    · intro a e ha
      exact hg3 a e (hgd a (.error e) ha)

theorem inv_dblHit {c0 : CacheState} {n0 buf : Int} {s : Sys} (i : Nat) (l : List Nat)
    (hu0 : usableAt c0 buf n0 = false)
    (hph : s.callers i = .leaderCheck) (hf : s.flight = some l) (hil : i ∈ l)
    (hu : usableAt s.cache buf s.now = true) (hinv : Inv c0 n0 s) :
    Inv c0 n0 { s with flight := none,
                       callers := completeAll (.ok s.cache.cachedToken) l s.callers } := by
  obtain ⟨hnow, hM, hB, hA1, hA2, hE, hF, hG⟩ := hinv
  have hmono : usableAt c0 buf s.now = false := usableAt_mono_false hu0 hnow
  have hcne : s.completed ≠ 0 := by
    intro h0
    have hcc : s.cache = c0 := hE h0
    rw [hcc, hmono] at hu
    exact Bool.noConfusion hu
  have hout : ∀ j, (s.callers j = .waiting ∨ isLeader (s.callers j)) → j ∈ l := by
    intro j hj
    rcases hM j hj with ⟨l2, hfl2, hjl2⟩
    rw [hf] at hfl2
    rw [(Option.some.inj hfl2).symm] at hjl2
    exact hjl2
  refine ⟨hnow, ?_, ?_, ?_, ?_, hE, ?_, ?_⟩
  · intro j hj
    have hj2 : completeAll (.ok s.cache.cachedToken) l s.callers j = .waiting
        ∨ isLeader (completeAll (.ok s.cache.cachedToken) l s.callers j) := hj
    rw [completeAll_apply] at hj2
    by_cases hjl : j ∈ l
    · rw [if_pos hjl] at hj2
      simp [isLeader] at hj2
    · rw [if_neg hjl] at hj2
      exact absurd (hout j hj2) hjl
  · intro a b ha hb
    have ha2 : isLeader (completeAll (.ok s.cache.cachedToken) l s.callers a) := ha
    have hb2 : isLeader (completeAll (.ok s.cache.cachedToken) l s.callers b) := hb
    rw [completeAll_apply] at ha2 hb2
    by_cases hal : a ∈ l
    · rw [if_pos hal] at ha2
      simp [isLeader] at ha2
    · rw [if_neg hal] at ha2
      by_cases hbl : b ∈ l
      · rw [if_pos hbl] at hb2
        simp [isLeader] at hb2
      · rw [if_neg hbl] at hb2
        exact hB a b ha2 hb2
  · rintro ⟨j, hj⟩
    have hj2 : completeAll (.ok s.cache.cachedToken) l s.callers j = .leaderExch := hj
    rw [completeAll_apply] at hj2
    by_cases hjl : j ∈ l
    · rw [if_pos hjl] at hj2
      exact absurd hj2 (by simp)
    · rw [if_neg hjl] at hj2
      exact absurd (hout j (Or.inr (Or.inr hj2))) hjl
  · intro _
    apply hA2
    intro j hj
    have hji : j = i := hB j i (Or.inr hj) (Or.inl hph)
    rw [hji, hph] at hj
    exact Phase.noConfusion hj
  · intro h0
    exact absurd h0 hcne
  · intro hst1
    obtain ⟨hg1, hg2, hg3⟩ := hG hst1
    have hold : ∀ a ra, s.callers a = .done ra → ra = .ok s.cache.cachedToken := by
      intro a ra ha
      cases ra with
      | ok t =>
        rw [hg2 a t ha]
      | error e =>
        have hcc := hg3 a e ha
        rw [hcc, hmono] at hu
        exact Bool.noConfusion hu
    have hgd : ∀ a ra, completeAll (.ok s.cache.cachedToken) l s.callers a = .done ra →
        ra = .ok s.cache.cachedToken := by
      intro a ra ha
      rw [completeAll_apply] at ha
      by_cases hal : a ∈ l
      · rw [if_pos hal] at ha
        exact (Phase.done.inj ha).symm
      · rw [if_neg hal] at ha
        exact hold a ra ha
    refine ⟨?_, ?_, ?_⟩
    · intro a b ra rb ha hb
      rw [hgd a ra ha, hgd b rb hb]
    · intro a t ha
      have h2 := hgd a (.ok t) ha
      show s.cache.cachedToken = t
      exact (Except.ok.inj h2).symm
    · intro a e ha
      have h2 := hgd a (.error e) ha
      exact absurd h2 (by simp)

theorem inv_dblMiss {c0 : CacheState} {n0 : Int} {s : Sys} (i : Nat)
    (hph : s.callers i = .leaderCheck) (hinv : Inv c0 n0 s) :
    Inv c0 n0 { s with callers := Function.update s.callers i .leaderExch,
                       started := s.started + 1 } := by
  obtain ⟨hnow, hM, hB, hA1, hA2, hE, hF, hG⟩ := hinv
  have hnoExch : ∀ j, s.callers j ≠ .leaderExch := by
    intro j hj
    have hji : j = i := hB j i (Or.inr hj) (Or.inl hph)
    rw [hji, hph] at hj
    exact Phase.noConfusion hj
  have heq : s.started = s.completed := hA2 hnoExch
  refine ⟨hnow, ?_, ?_, ?_, ?_, hE, ?_, ?_⟩
  · intro j hj
    have hj2 : Function.update s.callers i .leaderExch j = .waiting
        ∨ isLeader (Function.update s.callers i .leaderExch j) := hj
    rw [update_apply] at hj2
    by_cases hji : j = i
    · subst hji
      exact hM j (Or.inr (Or.inl hph))
    · rw [if_neg hji] at hj2
      exact hM j hj2
  · intro a b ha hb
    have ha2 : isLeader (Function.update s.callers i .leaderExch a) := ha
    have hb2 : isLeader (Function.update s.callers i .leaderExch b) := hb
    rw [update_apply] at ha2 hb2
    have ha3 : isLeader (s.callers a) := by
      by_cases hai : a = i
      · rw [hai, hph]
        exact Or.inl rfl
      · rw [if_neg hai] at ha2
        exact ha2
    have hb3 : isLeader (s.callers b) := by
      by_cases hbi : b = i
      · rw [hbi, hph]
        exact Or.inl rfl
      · rw [if_neg hbi] at hb2
        exact hb2
    exact hB a b ha3 hb3
  · intro _
    show s.started + 1 = s.completed + 1
    omega
  · intro hall
    have hni : Function.update s.callers i .leaderExch i ≠ Phase.leaderExch := hall i
    rw [update_apply, if_pos rfl] at hni
    exact absurd rfl hni
  · intro h0 j r
    have hFj := hF h0 j r
    intro hj
    have hj2 : Function.update s.callers i .leaderExch j = .done r := hj
    rw [update_apply] at hj2
    by_cases hji : j = i
    · rw [if_pos hji] at hj2
      exact Phase.noConfusion hj2
    · rw [if_neg hji] at hj2
      exact hFj hj2
  · intro hst1
    have hst0 : s.started = 0 := by
      have : s.started + 1 ≤ 1 := hst1
      omega
    have hc0 : s.completed = 0 := by omega
    refine ⟨?_, ?_, ?_⟩
    · intro a b ra rb ha hb
      have ha2 : Function.update s.callers i .leaderExch a = .done ra := ha
      rw [update_apply] at ha2
      by_cases hai : a = i
      · rw [if_pos hai] at ha2
        exact absurd ha2 (by simp)
      · rw [if_neg hai] at ha2
        exact absurd ha2 (hF hc0 a ra)
    · intro a t ha
      have ha2 : Function.update s.callers i .leaderExch a = .done (.ok t) := ha
      rw [update_apply] at ha2
      by_cases hai : a = i
      · rw [if_pos hai] at ha2
        exact absurd ha2 (by simp)
      · rw [if_neg hai] at ha2
        exact absurd ha2 (hF hc0 a (.ok t))
    · intro a e ha
      have ha2 : Function.update s.callers i .leaderExch a = .done (.error e) := ha
      rw [update_apply] at ha2
      by_cases hai : a = i
      · rw [if_pos hai] at ha2
        exact absurd ha2 (by simp)
      · rw [if_neg hai] at ha2
        exact absurd ha2 (hF hc0 a (.error e))

theorem inv_exchOk {c0 : CacheState} {n0 : Int} {s : Sys} (i : Nat) (l : List Nat)
    (tok : String) (ttl : Int)
    (hph : s.callers i = .leaderExch) (hf : s.flight = some l) (hil : i ∈ l)
    (hinv : Inv c0 n0 s) : Inv c0 n0 (completeOkState s l tok ttl) := by
  obtain ⟨hnow, hM, hB, hA1, hA2, hE, hF, hG⟩ := hinv
  have hstc : s.started = s.completed + 1 := hA1 ⟨i, hph⟩
  have hout : ∀ j, (s.callers j = .waiting ∨ isLeader (s.callers j)) → j ∈ l := by
    intro j hj
    rcases hM j hj with ⟨l2, hfl2, hjl2⟩
    rw [hf] at hfl2
    rw [(Option.some.inj hfl2).symm] at hjl2
    exact hjl2
  refine ⟨hnow, ?_, ?_, ?_, ?_, ?_, ?_, ?_⟩
  · intro j hj
    have hj2 : completeAll (.ok tok) l s.callers j = .waiting
        ∨ isLeader (completeAll (.ok tok) l s.callers j) := hj
    rw [completeAll_apply] at hj2
    by_cases hjl : j ∈ l
    · rw [if_pos hjl] at hj2
      simp [isLeader] at hj2
    · rw [if_neg hjl] at hj2
      exact absurd (hout j hj2) hjl
  · intro a b ha hb
    have ha2 : isLeader (completeAll (.ok tok) l s.callers a) := ha
    have hb2 : isLeader (completeAll (.ok tok) l s.callers b) := hb
    rw [completeAll_apply] at ha2 hb2
    by_cases hal : a ∈ l
    · rw [if_pos hal] at ha2
      simp [isLeader] at ha2
    · rw [if_neg hal] at ha2
      by_cases hbl : b ∈ l
      · rw [if_pos hbl] at hb2
        simp [isLeader] at hb2
      · rw [if_neg hbl] at hb2
        exact hB a b ha2 hb2
  · rintro ⟨j, hj⟩
    have hj2 : completeAll (.ok tok) l s.callers j = .leaderExch := hj
    rw [completeAll_apply] at hj2
    by_cases hjl : j ∈ l
    · rw [if_pos hjl] at hj2
      exact absurd hj2 (by simp)
    · rw [if_neg hjl] at hj2
      exact absurd (hout j (Or.inr (Or.inr hj2))) hjl
  · intro _
    show s.started = s.completed + 1
    exact hstc
  · intro h0
    exact absurd h0 (by show s.completed + 1 ≠ 0; omega)
  · intro h0
    exact absurd h0 (by show s.completed + 1 ≠ 0; omega)
  · intro hst1
    have hst1b : s.started ≤ 1 := hst1
    have hc0 : s.completed = 0 := by omega
    have hnone : ∀ a ra, s.callers a ≠ .done ra := hF hc0
    have hgd : ∀ a ra, completeAll (.ok tok) l s.callers a = .done ra →
        ra = .ok tok := by
      intro a ra ha
      rw [completeAll_apply] at ha
      by_cases hal : a ∈ l
      · rw [if_pos hal] at ha
        exact (Phase.done.inj ha).symm
      · rw [if_neg hal] at ha
        exact absurd ha (hnone a ra)
    refine ⟨?_, ?_, ?_⟩
    · intro a b ra rb ha hb
      rw [hgd a ra ha, hgd b rb hb]
    · intro a t ha
      have h2 := hgd a (.ok t) ha
      show tok = t
      exact (Except.ok.inj h2).symm
    · intro a e ha
      have h2 := hgd a (.error e) ha
      exact absurd h2 (by simp)

theorem inv_exchErr {c0 : CacheState} {n0 : Int} {s : Sys} (i : Nat) (l : List Nat)
    (e : String)
    (hph : s.callers i = .leaderExch) (hf : s.flight = some l) (hil : i ∈ l)
    (hinv : Inv c0 n0 s) : Inv c0 n0 (completeErrState s l e) := by
  obtain ⟨hnow, hM, hB, hA1, hA2, hE, hF, hG⟩ := hinv
  have hstc : s.started = s.completed + 1 := hA1 ⟨i, hph⟩
  have hout : ∀ j, (s.callers j = .waiting ∨ isLeader (s.callers j)) → j ∈ l := by
    intro j hj
    rcases hM j hj with ⟨l2, hfl2, hjl2⟩
    rw [hf] at hfl2
    rw [(Option.some.inj hfl2).symm] at hjl2
    exact hjl2
  refine ⟨hnow, ?_, ?_, ?_, ?_, ?_, ?_, ?_⟩
  · intro j hj
    have hj2 : completeAll (.error e) l s.callers j = .waiting
        ∨ isLeader (completeAll (.error e) l s.callers j) := hj
    rw [completeAll_apply] at hj2
    by_cases hjl : j ∈ l
    · rw [if_pos hjl] at hj2
      simp [isLeader] at hj2
    · rw [if_neg hjl] at hj2
      exact absurd (hout j hj2) hjl
  · intro a b ha hb
    have ha2 : isLeader (completeAll (.error e) l s.callers a) := ha
    have hb2 : isLeader (completeAll (.error e) l s.callers b) := hb
    rw [completeAll_apply] at ha2 hb2
    by_cases hal : a ∈ l
    · rw [if_pos hal] at ha2
      simp [isLeader] at ha2
    · rw [if_neg hal] at ha2
      by_cases hbl : b ∈ l
      · rw [if_pos hbl] at hb2
        simp [isLeader] at hb2
      · rw [if_neg hbl] at hb2
        exact hB a b ha2 hb2
  · rintro ⟨j, hj⟩
    have hj2 : completeAll (.error e) l s.callers j = .leaderExch := hj
    rw [completeAll_apply] at hj2
    by_cases hjl : j ∈ l
    · rw [if_pos hjl] at hj2
      exact absurd hj2 (by simp)
    · rw [if_neg hjl] at hj2
      exact absurd (hout j (Or.inr (Or.inr hj2))) hjl
  · intro _
    show s.started = s.completed + 1
    exact hstc
  · intro h0
    exact absurd h0 (by show s.completed + 1 ≠ 0; omega)
  · intro h0
    exact absurd h0 (by show s.completed + 1 ≠ 0; omega)
  · intro hst1
    have hst1b : s.started ≤ 1 := hst1
    have hc0 : s.completed = 0 := by omega
    have hnone : ∀ a ra, s.callers a ≠ .done ra := hF hc0
    have hgd : ∀ a ra, completeAll (.error e) l s.callers a = .done ra →
        ra = .error e := by
      intro a ra ha
      rw [completeAll_apply] at ha
      by_cases hal : a ∈ l
      · rw [if_pos hal] at ha
        exact (Phase.done.inj ha).symm
      · rw [if_neg hal] at ha
        exact absurd ha (hnone a ra)
    refine ⟨?_, ?_, ?_⟩
    · intro a b ra rb ha hb
      rw [hgd a ra ha, hgd b rb hb]
    · intro a t ha
      have h2 := hgd a (.ok t) ha
      exact absurd h2 (by simp)
    · intro a e2 ha
      show s.cache = c0
      exact hE hc0

theorem inv_step {c0 : CacheState} {n0 buf : Int} {s s2 : Sys}
    (hu0 : usableAt c0 buf n0 = false)
    (hinv : Inv c0 n0 s) (hstep : Step buf s s2) : Inv c0 n0 s2 := by
  cases hstep with
  | tick d hd => exact inv_tick d hd hinv
  | fastHit i hph hu => exact inv_fastHit i hu0 hph hu hinv
  | fastMiss i hph hu => exact inv_fastMiss i hph hinv
  | sfLead i hph hf => exact inv_sfLead i hph hf hinv
  | sfJoin i l hph hf => exact inv_sfJoin i l hph hf hinv
  | dblHit i l hph hf hil hu => exact inv_dblHit i l hu0 hph hf hil hu hinv
  | dblMiss i hph hu => exact inv_dblMiss i hph hinv
  | exchOk i l tok ttl hph hf hil htok httl => exact inv_exchOk i l tok ttl hph hf hil hinv
  | exchErr i l e hph hf hil => exact inv_exchErr i l e hph hf hil hinv

theorem inv_reach {c0 : CacheState} {n0 buf : Int} {s : Sys}
    (hu0 : usableAt c0 buf n0 = false) (h : Reach buf (initSys c0 n0) s) :
    Inv c0 n0 s := by
  induction h with
  | refl => exact inv_init c0 n0
  | step _ hs ih => exact inv_step hu0 ih hs

/-- C1: from any initial state whose cache is cold or expired (unusable at the
start instant) with no refresh in flight, in every reachable interleaving of
any number of concurrent GetToken callers: at most one exchange is ever in
flight and none starts before the previous one completed (started stays
within completed + 1, and the in-flight leader is unique); before the first
exchange completes no caller has returned and at most one exchange was
initiated; any caller that has returned implies an exchange was initiated;
and as long as only one exchange was ever initiated, all callers that
returned received the identical result (value or error). -/
theorem getToken_singleflight_coalescing (buf : Int) (c0 : CacheState) (n0 : Int)
    (s : Sys) (hu0 : usableAt c0 buf n0 = false)
    (h : Reach buf (initSys c0 n0) s) :
    s.started ≤ s.completed + 1
    ∧ (∀ i j, s.callers i = .leaderExch → s.callers j = .leaderExch → i = j)
    ∧ (s.completed = 0 → s.started ≤ 1 ∧ ∀ i r, s.callers i ≠ .done r)
    ∧ ((∃ i r, s.callers i = .done r) → 1 ≤ s.started)
    ∧ (s.started ≤ 1 →
        ∀ i j ri rj, s.callers i = .done ri → s.callers j = .done rj → ri = rj) := by
  obtain ⟨hnow, hM, hB, hA1, hA2, hE, hF, hG⟩ := inv_reach hu0 h
  have hcases : s.started = s.completed + 1 ∨ s.started = s.completed := by
    by_cases hex : ∃ i, s.callers i = .leaderExch
    · exact Or.inl (hA1 hex)
    · exact Or.inr (hA2 (fun j hj => hex ⟨j, hj⟩))
  refine ⟨?_, ?_, ?_, ?_, ?_⟩
  · omega
  · intro i j hi hj
    exact hB i j (Or.inr hi) (Or.inr hj)
  · intro h0
    exact ⟨by omega, hF h0⟩
  · rintro ⟨i, r, hir⟩
    by_cases h0 : s.completed = 0
    · exact absurd hir (hF h0 i r)
    · omega
  · intro hst1
    exact (hG hst1).1

/-- C1 witness: the guarantees instantiated at a concrete cold-cache initial
state reachable in zero steps. -/
theorem getToken_singleflight_coalescing_witness :
    usableAt ⟨(""), 0⟩ 300 0 = false
    ∧ ((initSys ⟨(""), 0⟩ 0).started ≤ (initSys ⟨(""), 0⟩ 0).completed + 1
      ∧ (∀ i j, (initSys ⟨(""), 0⟩ 0).callers i = .leaderExch →
          (initSys ⟨(""), 0⟩ 0).callers j = .leaderExch → i = j)
      ∧ ((initSys ⟨(""), 0⟩ 0).completed = 0 →
          (initSys ⟨(""), 0⟩ 0).started ≤ 1
          ∧ ∀ i r, (initSys ⟨(""), 0⟩ 0).callers i ≠ .done r)
      ∧ ((∃ i r, (initSys ⟨(""), 0⟩ 0).callers i = .done r) →
          1 ≤ (initSys ⟨(""), 0⟩ 0).started)
      ∧ ((initSys ⟨(""), 0⟩ 0).started ≤ 1 →
          ∀ i j ri rj, (initSys ⟨(""), 0⟩ 0).callers i = .done ri →
            (initSys ⟨(""), 0⟩ 0).callers j = .done rj → ri = rj)) :=
  ⟨by decide,
    getToken_singleflight_coalescing 300 ⟨(""), 0⟩ 0 (initSys ⟨(""), 0⟩ 0)
      (by decide) Reach.refl⟩

end DatabricksAuth
